import Mathlib

/-!
Verification of the attendance time engine of the `erp-face` repository
(`attendance_app`): the period resolver, the working-hours calculator, the
attendance state machine (including break toggling and geofencing), the
presence-trend aggregator, the filtered summary builder and the report sort
key.  Every definition below is a shallow embedding of the corresponding
Python function; Python `datetime.date` / `datetime.time` values are modelled
by an explicit calendar (`Date`) and by seconds-of-day (`Time`), Python floats
by rationals, and the Django record store by explicit lists of records.
-/

set_option autoImplicit false

namespace ErpFace

/-- Seconds of the day, `0 ≤ t < 86400`, modelling `datetime.time`.
Comparison of `datetime.time` values is lexicographic on
(hour, minute, second), which coincides with the numeric order of
seconds-of-day. -/
abbrev Time := Nat

/-- Builds a `Time` from hours, minutes and seconds. -/
def hms (h m s : Nat) : Time := h * 3600 + m * 60 + s

/-- `AttendanceManager.IN_TIME_END = time(11, 0)`. -/
def IN_TIME_END : Time := hms 11 0 0

/-- `AttendanceManager.LUNCH_TIME_START = time(13, 30)`. -/
def LUNCH_TIME_START : Time := hms 13 30 0

/-- `AttendanceManager.LUNCH_TIME_END = time(14, 30)`. -/
def LUNCH_TIME_END : Time := hms 14 30 0

/-- `AttendanceManager.OUT_TIME_MIN = time(19, 0)`. -/
def OUT_TIME_MIN : Time := hms 19 0 0

/-- `AttendanceManager.OUT_TIME_DEFAULT = time(19, 15)` — auto OUT at 7:15 PM. -/
def OUT_TIME_DEFAULT : Time := hms 19 15 0

/-- Calendar date, modelling `datetime.date` (proleptic Gregorian calendar). -/
structure Date where
  year : Nat
  month : Nat
  day : Nat
deriving DecidableEq, Repr

/-- Gregorian leap-year predicate, as used by Python's `calendar.isleap`. -/
def isLeap (y : Nat) : Bool := (y % 4 == 0 && y % 100 != 0) || y % 400 == 0

/-- Number of days of month `m` of year `y` (`calendar.monthrange(y, m)[1]`). -/
def daysInMonth (y m : Nat) : Nat :=
  if m = 2 then (if isLeap y then 29 else 28)
  else if m = 4 ∨ m = 6 ∨ m = 9 ∨ m = 11 then 30
  else 31

/-- Days of year `y` that precede the first day of month `m`. -/
def daysBeforeMonth (y : Nat) : Nat → Nat
  | 0 => 0
  | 1 => 0
  | m + 1 => daysBeforeMonth y m + daysInMonth y m

/-- Days that precede January 1 of year `y` (proleptic Gregorian). -/
def daysBeforeYear (y : Nat) : Nat :=
  365 * (y - 1) + (y - 1) / 4 + (y - 1) / 400 - (y - 1) / 100

/-- Rata-die day number of a date: `toRata ⟨1, 1, 1⟩ = 1`.  The order of
`toRata` on valid dates is the calendar order of `datetime.date`. -/
def toRata (d : Date) : Nat :=
  daysBeforeYear d.year + daysBeforeMonth d.year d.month + d.day

/-- `datetime.date.weekday()`: Monday is `0`; `date(1, 1, 1)` is a Monday. -/
def weekday (d : Date) : Nat := (toRata d - 1) % 7

/-- The calendar day after `d` (`d + timedelta(days=1)`). -/
def nextDay (d : Date) : Date :=
  if d.day < daysInMonth d.year d.month then ⟨d.year, d.month, d.day + 1⟩
  else if d.month < 12 then ⟨d.year, d.month + 1, 1⟩
  else ⟨d.year + 1, 1, 1⟩

/-- The calendar day before `d` (`d - timedelta(days=1)`). -/
def prevDay (d : Date) : Date :=
  if 1 < d.day then ⟨d.year, d.month, d.day - 1⟩
  else if 1 < d.month then ⟨d.year, d.month - 1, daysInMonth d.year (d.month - 1)⟩
  else ⟨d.year - 1, 12, 31⟩

/-- `d + timedelta(days=n)` for `n ≥ 0`. -/
def addDaysNat : Date → Nat → Date
  | d, 0 => d
  | d, n + 1 => addDaysNat (nextDay d) n

/-- `d - timedelta(days=n)` for `n ≥ 0`. -/
def subDaysNat : Date → Nat → Date
  | d, 0 => d
  | d, n + 1 => subDaysNat (prevDay d) n

/-- A structurally valid calendar date (what `datetime.date` can hold,
restricted to years `≥ 1`). -/
def Date.Valid (d : Date) : Prop :=
  1 ≤ d.year ∧ 1 ≤ d.month ∧ d.month ≤ 12 ∧ 1 ≤ d.day ∧
    d.day ≤ daysInMonth d.year d.month

instance (d : Date) : Decidable d.Valid := by
  unfold Date.Valid; infer_instance

/-- `AttendanceManager.get_period_dates(today, period)`: start and end dates
of the period containing `today`.  `today.replace(day=28) + timedelta(days=4)`
always lands in the following month, whose `replace(day=1)` is its first day;
subtracting one day yields the last day of `today`'s month. -/
def get_period_dates (today : Date) (period : String) : Date × Date :=
  if period = "week" then
    let start_date := subDaysNat today (weekday today)
    let end_date := addDaysNat start_date 6
    (start_date, end_date)
  else if period = "month" then
    let start_date : Date := ⟨today.year, today.month, 1⟩
    let tmp := addDaysNat ⟨today.year, today.month, 28⟩ 4
    let next_month : Date := ⟨tmp.year, tmp.month, 1⟩
    let end_date := subDaysNat next_month 1
    (start_date, end_date)
  else if period = "year" then
    (⟨today.year, 1, 1⟩, ⟨today.year, 12, 31⟩)
  else
    (today, today)

example : get_period_dates ⟨2025, 6, 17⟩ "week" = (⟨2025, 6, 16⟩, ⟨2025, 6, 22⟩) := by
  decide

example : get_period_dates ⟨2025, 6, 17⟩ "month" = (⟨2025, 6, 1⟩, ⟨2025, 6, 30⟩) := by
  decide

example : get_period_dates ⟨2024, 2, 10⟩ "month" = (⟨2024, 2, 1⟩, ⟨2024, 2, 29⟩) := by
  decide

/-! ### Breaks and attendance records (`attendance_app/models.py`) -/

/-- `Break.break_type ∈ {LUNCH, OTHER}`. -/
inductive BreakType where
  | LUNCH
  | OTHER
deriving DecidableEq, Repr

/-- An embedded `Break`: `break_in` and `break_out` are nullable times. -/
structure BreakRec where
  break_type : BreakType
  break_in : Option Time
  break_out : Option Time
deriving DecidableEq, Repr

/-- The day's unique `IN` attendance record as the working-hours calculator
sees it: its `time` and its `breaks` array (a null array is modelled by the
empty list — the code treats both alike). -/
structure InRecord where
  time : Time
  breaks : List BreakRec
deriving DecidableEq, Repr

/-! ### Working-hours calculator
(`AttendanceManager.calculate_working_hours`, attendance_manager.py 75-142) -/

/-- Absolute instant (in seconds) of date `d` at time-of-day `t`, modelling a
timezone-aware `datetime.combine(d, t)`; differences of these are
`timedelta.total_seconds()`. -/
def dtSecs (d : Date) (t : Time) : Int := (toRata d : Int) * 86400 + (t : Int)

/-- Duration contributed by one break: `datetime.combine(d, break_out) -
datetime.combine(d, break_in)` in seconds; only breaks with both endpoints
set contribute (`if b.break_in and b.break_out`). -/
def closedBreakSeconds (b : BreakRec) : Int :=
  match b.break_in, b.break_out with
  | some bi, some bo => (bo : Int) - (bi : Int)
  | _, _ => 0

/-- Seconds of closed `LUNCH` breaks of the record. -/
def lunchSeconds (bs : List BreakRec) : Int :=
  (bs.filter (fun b => b.break_type == .LUNCH && b.break_in.isSome &&
    b.break_out.isSome)).foldl (fun acc b => acc + closedBreakSeconds b) 0

/-- Seconds of closed non-lunch breaks of the record. -/
def otherBreakSeconds (bs : List BreakRec) : Int :=
  (bs.filter (fun b => b.break_type != .LUNCH && b.break_in.isSome &&
    b.break_out.isSome)).foldl (fun acc b => acc + closedBreakSeconds b) 0

/-- Effective end instant of the working day together with the `has_out`
flag (attendance_manager.py 118-129): the `OUT` record's time when present;
the default auto-out time `19:15` for a past date without an `OUT`; the
current instant (`timezone.now()`, i.e. today at `nowTime`) otherwise. -/
def effectiveEnd (outTime : Option Time) (target today : Date) (nowTime : Time) :
    Int × Bool :=
  match outTime with
  | some t => (dtSecs target t, true)
  | none =>
    if toRata target < toRata today then (dtSecs target OUT_TIME_DEFAULT, false)
    else (dtSecs today nowTime, false)

/-- `AttendanceManager.calculate_working_hours`, with the day's `IN` and
`OUT` records (each unique by the `unique_together` constraint) passed
explicitly.  Returns
`(total_working_seconds, lunch_seconds, other_break_seconds, has_out)`;
the Python function returns the three durations divided by `3600.0`. -/
def calculate_working_hours (inRec : Option InRecord) (outTime : Option Time)
    (target today : Date) (nowTime : Time) : Int × Int × Int × Bool :=
  match inRec with
  | none => (0, 0, 0, false)
  | some ir =>
    let lunch := lunchSeconds ir.breaks
    let other := otherBreakSeconds ir.breaks
    let startAbs := dtSecs target ir.time
    let (endAbs, has_out) := effectiveEnd outTime target today nowTime
    let total : Int :=
      if startAbs < endAbs then (endAbs - startAbs) - (lunch + other) else 0
    (total, lunch, other, has_out)

/-- Working hours as the Python caller sees them: seconds divided by `3600.0`. -/
def workedHours (inRec : Option InRecord) (outTime : Option Time)
    (target today : Date) (nowTime : Time) : ℚ :=
  ((calculate_working_hours inRec outTime target today nowTime).1 : ℚ) / 3600

/-! ### Attendance state machine
(`mark_attendance_with_gesture`, attendance_views.py 300-447) -/

/-- Today's attendance state of one employee as the view reads it:
the unique `IN` record, the unique `OUT` record's time, and the employee's
`last_seen` timestamp (an absolute instant, `Option` because the field is
nullable). -/
structure MarkState where
  inRec : Option InRecord
  outTime : Option Time
  lastSeen : Option Int
deriving DecidableEq, Repr

/-- The action names reported in the `attendance_type` response field. -/
inductive ActionType where
  | IN
  | OUT
  | BREAK_IN
  | BREAK_OUT
deriving DecidableEq, Repr

/-- The distinguishable `JsonResponse` payloads of
`mark_attendance_with_gesture` (success vs. the informational and failure
results; `tooFar` carries the computed geodesic distance reported in the
message). -/
inductive MarkResponse where
  | unknownPerson
  | employeeNotFound
  | tooFar (distance : ℚ)
  | success (action : ActionType) (is_late : Bool)
  | alreadyCheckedOut
deriving DecidableEq, Repr

/-- Break type chosen for a new break (attendance_views.py 398, 408):
`LUNCH` iff the current time lies in `[13:30, 14:30]`. -/
def newBreakType (t : Time) : BreakType :=
  if LUNCH_TIME_START ≤ t ∧ t ≤ LUNCH_TIME_END then .LUNCH else .OTHER

/-- Line 397: `last_break = in_record.breaks[-1] if in_record.breaks and
in_record.breaks[-1].break_in else None`.  Yields the last break only when
the array is non-empty and that break's `break_in` is set. -/
def lastBreakProbe (bs : List BreakRec) : Option BreakRec :=
  match bs.getLast? with
  | some b => if b.break_in.isSome then some b else none
  | none => none

/-- In-place mutation of `breaks[-1].break_out` (lines 402-403): every break
but the last is kept, the last one gets `break_out := some t`. -/
def setLastBreakOut (bs : List BreakRec) (t : Time) : List BreakRec :=
  match bs.getLast? with
  | some b => bs.dropLast ++ [{ b with break_out := some t }]
  | none => bs

/-- The break-handling arm of the state machine (attendance_views.py
396-415), reached when an `IN` record exists, no `OUT` record exists and the
current time is before `19:00`: close the probed open break, otherwise append
a fresh break. -/
def breakStep (bs : List BreakRec) (t : Time) : List BreakRec × ActionType :=
  match lastBreakProbe bs with
  | some lb =>
    if lb.break_out.isNone then (setLastBreakOut bs t, .BREAK_OUT)
    else (bs ++ [⟨newBreakType t, some t, none⟩], .BREAK_IN)
  | none => (bs ++ [⟨newBreakType t, some t, none⟩], .BREAK_IN)

/-- The core decision of `mark_attendance_with_gesture` (lines 361-440) once
identity and geofence checks have passed: `t` is the current local time,
`now` the current instant.  Every branch ends by writing
`employee.last_seen = timezone.now()` (lines 420-422); a fresh `IN` record is
created with an unset (empty) breaks array. -/
def markStep (st : MarkState) (t : Time) (now : Int) : MarkState × MarkResponse :=
  match st.inRec with
  | none =>
    let is_late := IN_TIME_END < t
    ({ inRec := some ⟨t, []⟩, outTime := st.outTime, lastSeen := some now },
      .success .IN (decide is_late))
  | some ir =>
    match st.outTime with
    | none =>
      if OUT_TIME_MIN ≤ t then
        ({ st with outTime := some t, lastSeen := some now }, .success .OUT false)
      else
        let (bs, act) := breakStep ir.breaks t
        ({ st with inRec := some { ir with breaks := bs }, lastSeen := some now },
          .success act false)
    | some _ => ({ st with lastSeen := some now }, .alreadyCheckedOut)

/-- `mark_attendance_with_gesture` with the identity and geofencing layer
(attendance_views.py 321-359): `recognized` is the recognized name (`none`
when missing or empty), `employeeExists` whether `Employee.objects.get(name=…)`
succeeds, `officeRadius` the configured radius when a `LocationSetting`
exists, and `distance` the geodesic distance between office and device (in
meters) when both coordinates are available — the great-circle computation
itself is the external `geopy.distance.geodesic` library and is modelled as
this input. -/
def evaluateAttendance (recognized : Option String) (employeeExists : Bool)
    (officeRadius : Option ℚ) (distance : Option ℚ)
    (st : MarkState) (t : Time) (now : Int) : MarkState × MarkResponse :=
  match recognized with
  | none => (st, .unknownPerson)
  | some name =>
    if name = "" ∨ name = "Unknown" then (st, .unknownPerson)
    else if !employeeExists then (st, .employeeNotFound)
    else
      match officeRadius, distance with
      | some r, some d =>
        if d > r then (st, .tooFar d) else markStep st t now
      | _, _ => markStep st t now

/-- Break lists reachable through the state machine: a day starts with an
empty array, and every later change goes through `breakStep` at some time
strictly before `19:00` (the only branch that touches `breaks`). -/
inductive ReachableBreaks : List BreakRec → Prop where
  | init : ReachableBreaks []
  | step (bs : List BreakRec) (t : Time) (ht : t < OUT_TIME_MIN)
      (h : ReachableBreaks bs) : ReachableBreaks (breakStep bs t).1

/-! ### Record store (`AttendanceRecord` rows, models.py 102-154) -/

/-- One `AttendanceRecord` row with its related employee columns:
`employee` is the `Employee` primary key, `employee_id` the unique staff-id
string used by the report filters. -/
structure DBRec where
  employee : Nat
  employee_name : String
  employee_id : String
  date : Date
  time : Time
  attendance_type : String
  breaks : List BreakRec
deriving DecidableEq, Repr

/-- `AttendanceRecord.objects.filter(employee=…, date=…, attendance_type=…)
.first()`.  The `unique_together = ['employee', 'date', 'attendance_type']`
constraint makes at most one row match, so `.first()` is unambiguous. -/
def findRecord (db : List DBRec) (emp : Nat) (d : Date) (ty : String) :
    Option DBRec :=
  (db.filter (fun r => r.employee == emp && r.date == d &&
    r.attendance_type == ty)).head?

/-- `calculate_working_hours(employee, target_date)` reading its `IN` and
`OUT` records from the store. -/
def calcFor (db : List DBRec) (emp : Nat) (d today : Date) (nowT : Time) :
    Int × Int × Int × Bool :=
  calculate_working_hours
    ((findRecord db emp d "IN").map (fun r => ⟨r.time, r.breaks⟩))
    ((findRecord db emp d "OUT").map (fun r => r.time))
    d today nowT

/-! ### Filtered summary builder
(`AttendanceManager.get_filtered_attendance_summary`,
attendance_manager.py 144-195) -/

/-- One summary dictionary produced per surviving `IN` record.  The Python
code stores `date` and `in_time` as strftime-formatted strings; the report
processor parses the date string back, so the raw values are kept here and
formatting is applied where the strings are consumed. -/
structure SummaryRow where
  employee : Nat
  employee_name : String
  employee_id : String
  date : Date
  in_time : Time
  breaks : List BreakRec
  out_time : Option Time
  has_out : Bool
deriving DecidableEq, Repr

/-- Truthiness of the `total_hours_lt` float parameter: `None` and `0.0` are
falsy, every other float truthy (`if total_hours_lt and …`). -/
def pyTruthyQ : Option ℚ → Bool
  | none => false
  | some v => v != 0

/-- The base query of the summary builder (attendance_manager.py 158-166):
`IN` records in `[start, end]`, restricted to the given staff ids when that
list is non-empty (`if employee_ids_list:`). -/
def inBaseQuery (start endD : Date) (employee_ids : List String)
    (r : DBRec) : Bool :=
  toRata start ≤ toRata r.date && toRata r.date ≤ toRata endD &&
  r.attendance_type == "IN" &&
  (employee_ids.isEmpty || employee_ids.contains r.employee_id)

/-- The summary dictionary built for one surviving record
(attendance_manager.py 183-193). -/
def summaryRowOf (db : List DBRec) (r : DBRec) (today : Date) (nowT : Time) :
    SummaryRow :=
  { employee := r.employee
    employee_name := r.employee_name
    employee_id := r.employee_id
    date := r.date
    in_time := r.time
    breaks := r.breaks
    out_time := (findRecord db r.employee r.date "OUT").map (fun o => o.time)
    has_out := (calcFor db r.employee r.date today nowT).2.2.2 }

/-- `AttendanceManager.get_filtered_attendance_summary` over the record
store, with the date strings already parsed (the Python function returns `[]`
on an unparseable date string before reaching any of this logic) and the
`order_by('date', 'employee__name')` presentation ordering omitted — it only
permutes the rows.  A record is skipped when the hours filter is truthy
(`if total_hours_lt and …`) and its computed working hours reach the
threshold. -/
def get_filtered_attendance_summary (db : List DBRec) (start endD : Date)
    (employee_ids : List String) (total_hours_lt : Option ℚ)
    (today : Date) (nowT : Time) : List SummaryRow :=
  let base := db.filter (inBaseQuery start endD employee_ids)
  base.filterMap (fun r =>
    let total_hours : ℚ := ((calcFor db r.employee r.date today nowT).1 : ℚ) / 3600
    if pyTruthyQ total_hours_lt && decide (total_hours_lt.getD 0 ≤ total_hours)
    then none
    else some (summaryRowOf db r today nowT))

/-! ### Presence trend aggregator
(`AttendanceManager.get_attendance_percentage_trends`,
attendance_manager.py 268-318) -/

/-- Zero-padded two-digit decimal (strftime `%m`, `%d`). -/
def pad2 (n : Nat) : String :=
  if n < 10 then "0" ++ toString n else toString n

/-- Zero-padded four-digit decimal (strftime `%Y`). -/
def pad4 (n : Nat) : String :=
  if n < 10 then "000" ++ toString n
  else if n < 100 then "00" ++ toString n
  else if n < 1000 then "0" ++ toString n
  else toString n

/-- strftime `%Y-%m-%d`. -/
def fmtDate (d : Date) : String :=
  pad4 d.year ++ "-" ++ pad2 d.month ++ "-" ++ pad2 d.day

/-- strftime `%Y-%m`. -/
def fmtYM (d : Date) : String := pad4 d.year ++ "-" ++ pad2 d.month

/-- strftime `%Y`. -/
def fmtY (d : Date) : String := pad4 d.year

/-- Number of distinct employees with an `IN` record on one of the given
days: `set(AttendanceRecord.objects.filter(date__in=days_to_check,
attendance_type='IN').values_list('employee', flat=True))`. -/
def presentCount (records : List DBRec) (days : List Date) : Nat :=
  (((records.filter (fun r => days.contains r.date &&
    r.attendance_type == "IN")).map (fun r => r.employee)).dedup).length

/-- The `while current_date <= end_date` loop of
`get_attendance_percentage_trends`, with explicit fuel (the Python loop
terminates because every `next_date` is strictly later).  Each iteration
emits one `(key, present, absent)` bucket; consecutive keys are pairwise
distinct (the cursor leaves the current day / month / year), so the emitted
list carries exactly the buckets of the Python `defaultdict`.  In the yearly
arm `current_date.replace(year=current_date.year + 1)` is modelled by the
plain component update (Python raises `ValueError` when that date is a
February 29, a start date the loop is never given by its callers). -/
def trendLoop (records : List DBRec) (total : Int) (endD : Date)
    (interval : String) : Date → Nat → List (String × Int × Int)
  | _, 0 => []
  | cur, fuel + 1 =>
    if toRata cur ≤ toRata endD then
      let step : String × List Date × Date :=
        if interval == "daily" then
          (fmtDate cur, [cur], addDaysNat cur 1)
        else if interval == "monthly" then
          (fmtYM cur,
           (List.range (daysInMonth cur.year cur.month)).filterMap (fun i =>
             let dd := addDaysNat cur i
             if toRata dd ≤ toRata endD then some dd else none),
           let tmp := addDaysNat ⟨cur.year, cur.month, 28⟩ 4
           ⟨tmp.year, tmp.month, 1⟩)
        else
          (fmtY cur,
           (List.range (365 + if isLeap cur.year then 1 else 0)).filterMap
             (fun i =>
               let dd := addDaysNat cur i
               if toRata dd ≤ toRata endD then some dd else none),
           ⟨cur.year + 1, cur.month, cur.day⟩)
      let present : Int := presentCount records step.2.1
      (step.1, present, total - present) ::
        trendLoop records total endD interval step.2.2 fuel
    else []

/-- `AttendanceManager.get_attendance_percentage_trends`: an empty employee
table short-circuits to an empty result, otherwise the bucket loop runs from
`start`. -/
def get_attendance_percentage_trends (employees : List Nat)
    (records : List DBRec) (start endD : Date) (interval : String)
    (fuel : Nat) : List (String × Int × Int) :=
  if employees.length == 0 then []
  else trendLoop records (employees.length : Int) endD interval start fuel

/-! ### Report row processing and sort key
(`_process_attendance_record_for_report` and `dynamic_sort_key`,
admin_views.py 28-86 and 365-388) -/

/-- strftime `%I:%M %p` (12-hour clock, zero-padded hour, `AM`/`PM`). -/
def formatTime12 (t : Time) : String :=
  let h := t / 3600
  let m := t % 3600 / 60
  let h12 := if h % 12 = 0 then 12 else h % 12
  pad2 h12 ++ ":" ++ pad2 m ++ " " ++ (if h < 12 then "AM" else "PM")

/-- Python `%.2f` formatting, modelled as exact rounding of the rational to
two decimal places (the Python value is a binary double; its decimal
rendering can differ in the last digit for exact ties). -/
def fmt2 (q : ℚ) : String :=
  let n : Int := round (q * 100)
  let a := n.natAbs
  (if n < 0 then "-" else "") ++ toString (a / 100) ++ "." ++ pad2 (a % 100)

/-- One processed report line: all values are presentation strings, exactly
the dictionary built at admin_views.py 75-86. -/
structure ReportRow where
  employee_name : String
  employee_id : String
  date : String
  in_time : String
  out_time : String
  lunch_in_time : String
  lunch_out_time : String
  total_break_duration : String
  total_working_hours : String
  overtime_hours : String
deriving DecidableEq, Repr

/-- The `out_time` column of a report row (admin_views.py 63-71): the `OUT`
record's formatted time when present; the formatted default auto-out time for
a past open day; the placeholder for a still-open day. -/
def processOutTime (outTime : Option Time) (has_out : Bool)
    (recordDate today : Date) : String :=
  match outTime with
  | some t => formatTime12 t
  | none =>
    if !has_out && decide (toRata recordDate < toRata today) then
      formatTime12 OUT_TIME_DEFAULT
    else if !has_out then "In progress..."
    else "-"

/-- `_process_attendance_record_for_report(record, today_date)` over a
summary row (the `record` dictionary).  `record['date']` is parsed back from
its `%Y-%m-%d` string, which round-trips to the stored date.  For
`lunch_in_time` / `lunch_out_time` the generator guards of the Python code
are kept: the earliest set `break_in` of the lunch breaks and the latest set
`break_out` (the `min()` over an exhausted generator — lunch breaks present
but none with a set `break_in` — cannot arise for machine-written breaks,
whose `break_in` is always set). -/
def processRecord (db : List DBRec) (row : SummaryRow) (today : Date)
    (nowT : Time) : ReportRow :=
  let standard_work_hours : ℚ := 8
  let res := calcFor db row.employee row.date today nowT
  let total_hours : ℚ := (res.1 : ℚ) / 3600
  let lunch_hours : ℚ := (res.2.1 : ℚ) / 3600
  let other_hours : ℚ := (res.2.2.1 : ℚ) / 3600
  let has_out := res.2.2.2
  let lunch_breaks := row.breaks.filter (fun b => b.break_type == .LUNCH)
  let lunch_in : Option Time :=
    if lunch_breaks.isEmpty then none
    else (lunch_breaks.filterMap (fun b => b.break_in)).min?
  let lunch_out : Option Time :=
    if lunch_breaks.all (fun b => b.break_out.isNone) then none
    else (lunch_breaks.filterMap (fun b => b.break_out)).max?
  let total_break_hours := lunch_hours + other_hours
  let overtime_hours : ℚ := max 0 (total_hours - standard_work_hours)
  { employee_name := row.employee_name
    employee_id := row.employee_id
    date := fmtDate row.date
    in_time := formatTime12 row.in_time
    out_time := processOutTime row.out_time has_out row.date today
    lunch_in_time := match lunch_in with
      | some t => formatTime12 t
      | none => "-"
    lunch_out_time := match lunch_out with
      | some t => formatTime12 t
      | none => "-"
    total_break_duration :=
      if 0 < total_break_hours then fmt2 total_break_hours ++ " hours" else "-"
    total_working_hours := fmt2 total_hours ++ " hours"
    overtime_hours := fmt2 overtime_hours ++ " hours" }

/-- Python's substring test `sub in s`. -/
def strContainsSub (s sub : String) : Bool :=
  (List.range (s.toList.length + 1)).any
    (fun i => sub.toList.isPrefixOf (s.toList.drop i))

/-- The dictionary lookup `sort_by_map.get(sort_by, '')` of
`dynamic_sort_key` (admin_views.py 367-376). -/
def sortFieldValue (sort_by : String) (item : ReportRow) : String :=
  if sort_by == "employee_name" then item.employee_name
  else if sort_by == "employee_id" then item.employee_id
  else if sort_by == "date" then item.date
  else if sort_by == "in_time" then item.in_time
  else if sort_by == "out_time" then item.out_time
  else if sort_by == "total_working_hours" then item.total_working_hours
  else if sort_by == "overtime_hours" then item.overtime_hours
  else ""

/-- Python `str.split(sep)` for a one-character separator, on character
lists (adjacent separators produce empty pieces, like Python). -/
def splitOnChar (c : Char) : List Char → List (List Char)
  | [] => [[]]
  | x :: xs =>
    match splitOnChar c xs with
    | [] => [[x]]
    | y :: ys => if x = c then [] :: y :: ys else (x :: y) :: ys

/-- Value of one ASCII decimal digit, `none` for every other character. -/
def charDigitVal (ch : Char) : Option Nat :=
  if ch = '0' then some 0 else if ch = '1' then some 1
  else if ch = '2' then some 2 else if ch = '3' then some 3
  else if ch = '4' then some 4 else if ch = '5' then some 5
  else if ch = '6' then some 6 else if ch = '7' then some 7
  else if ch = '8' then some 8 else if ch = '9' then some 9
  else none

/-- Accumulating decimal read of a digit string. -/
def digitsToNatAux : List Char → Nat → Option Nat
  | [], acc => some acc
  | ch :: cs, acc =>
    match charDigitVal ch with
    | some d => digitsToNatAux cs (acc * 10 + d)
    | none => none

/-- Decimal value of a non-empty all-digit character string, else `none`. -/
def digitsToNat? (cs : List Char) : Option Nat :=
  if cs.isEmpty then none else digitsToNatAux cs 0

/-- Removal of every (non-overlapping, left-to-right) occurrence of `sub`,
modelling `str.replace(sub, '')`; the fuel is the list length, which bounds
the number of scanning steps. -/
def removeAllAux (sub : List Char) : Nat → List Char → List Char
  | 0, cs => cs
  | _ + 1, [] => []
  | fuel + 1, x :: xs =>
    if sub ≠ [] ∧ sub.isPrefixOf (x :: xs) then
      removeAllAux sub fuel ((x :: xs).drop sub.length)
    else x :: removeAllAux sub fuel xs

/-- `value.replace(sub, '')` on strings. -/
def pyReplaceEmpty (s sub : String) : String :=
  String.mk (removeAllAux sub.toList s.toList.length s.toList)

/-- Model of `datetime.strptime(value, '%I:%M %p').time()`: a 1-2 digit hour
in `1..12`, a colon, a two-digit minute in `00..59`, a space and `AM`/`PM`
(the canonical forms emitted by `%p`). Everything else raises `ValueError`
in Python, i.e. yields `none` here. -/
def parseTime12 (s : String) : Option Time :=
  match splitOnChar ' ' s.toList with
  | [hm, ap] =>
    match splitOnChar ':' hm with
    | [hs, ms] =>
      match digitsToNat? hs, digitsToNat? ms with
      | some h, some m =>
        if 1 ≤ hs.length ∧ hs.length ≤ 2 ∧ ms.length = 2 ∧
            1 ≤ h ∧ h ≤ 12 ∧ m ≤ 59 ∧
            (ap = "AM".toList ∨ ap = "PM".toList) then
          some ((h % 12 + if ap = "PM".toList then 12 else 0) * 3600 + m * 60)
        else none
      | _, _ => none
    | _ => none
  | _ => none

/-- Model of Python `float()` on the decimal-literal strings produced by the
report formatter (an optional sign, digits, an optional fractional part);
other accepted `float()` spellings (exponents, `inf`, whitespace) never occur
here. -/
def parseDecimal (s : String) : Option ℚ :=
  let cs := s.toList
  let sgn : ℚ := if cs.head? = some '-' then -1 else 1
  let t := if cs.head? = some '-' then cs.tail else cs
  match splitOnChar '.' t with
  | [a] =>
    match digitsToNat? a with
    | some n => some (sgn * (n : ℚ))
    | none => none
  | [a, b] =>
    if (a.all (fun ch => (charDigitVal ch).isSome)) ∧
        (b.all (fun ch => (charDigitVal ch).isSome)) ∧ ¬ (a = [] ∧ b = []) then
      some (sgn * (((digitsToNat? a).getD 0 : ℚ) +
        ((digitsToNat? b).getD 0 : ℚ) / ((10 : ℚ) ^ b.length)))
    else none
  | _ => none

/-- The heterogeneous values `dynamic_sort_key` can return (a parsed
time-of-day, a parsed float, or the raw string). -/
inductive SortKey where
  | timeKey (t : Time)
  | numKey (q : ℚ)
  | strKey (s : String)
deriving DecidableEq, Repr

/-- `dynamic_sort_key(item)` for a given `sort_by` (admin_views.py 365-385).
Keys containing `time` are parsed with `strptime('%I:%M %p')` — a parse
failure is Python's uncaught `ValueError`, returned as `Except.error` with
the offending value; empty or `'-'` values fall back to `time.min`.  Keys
containing `hours` are parsed as floats with a `ValueError` handler that
falls back to `0.0`.  Every other key sorts by the raw string. -/
def dynamic_sort_key (sort_by : String) (item : ReportRow) :
    Except String SortKey :=
  let value := sortFieldValue sort_by item
  if strContainsSub sort_by "time" then
    if value != "" && value != "-" then
      match parseTime12 value with
      | some t => Except.ok (SortKey.timeKey t)
      | none => Except.error value
    else Except.ok (SortKey.timeKey 0)
  else if strContainsSub sort_by "hours" then
    Except.ok (SortKey.numKey
      (if value != "" && value != "-" then
        (parseDecimal (pyReplaceEmpty value " hours")).getD 0
      else 0))
  else Except.ok (SortKey.strKey value)

/-- Comparison used by `sorted(...)`: values returned for one `sort_by` all
have the same shape, and Python compares them by time, number or string
order; the cross-constructor cases (unreachable in one sort) are ordered by
an arbitrary constructor rank. -/
def sortKeyLE : SortKey → SortKey → Bool
  | .timeKey a, .timeKey b => a ≤ b
  | .numKey a, .numKey b => decide (a ≤ b)
  | .strKey a, .strKey b => decide (a ≤ b)
  | .timeKey _, _ => true
  | .numKey _, .timeKey _ => false
  | .numKey _, .strKey _ => true
  | .strKey _, _ => false

/-- `sorted(processed_records, key=dynamic_sort_key, reverse=(sort_order ==
'desc'))` (admin_views.py 388): evaluating the key function on every row —
propagating its `ValueError` — and stably sorting by the resulting keys. -/
def sortReport (rows : List ReportRow) (sort_by sort_order : String) :
    Except String (List ReportRow) :=
  match rows.mapM (fun r => (dynamic_sort_key sort_by r).map (fun k => (k, r))) with
  | Except.error e => Except.error e
  | Except.ok pairs =>
    Except.ok ((pairs.mergeSort (fun a b =>
      if sort_order == "desc" then sortKeyLE b.1 a.1 else sortKeyLE a.1 b.1)).map
        (fun p => p.2))

/-! ### Calendar lemmas -/

lemma daysInMonth_pos (y m : Nat) : 1 ≤ daysInMonth y m := by
  unfold daysInMonth; split_ifs <;> omega

lemma daysBeforeMonth_succ (y m : Nat) (hm : 1 ≤ m) :
    daysBeforeMonth y (m + 1) = daysBeforeMonth y m + daysInMonth y m := by
  match m, hm with
  | Nat.succ k, _ => rfl

lemma daysBeforeMonth_twelve (y : Nat) :
    daysBeforeMonth y 12 = if isLeap y then 335 else 334 := by
  by_cases h : isLeap y = true <;>
    simp [daysBeforeMonth, daysInMonth, h]

set_option maxHeartbeats 1000000 in
lemma daysBeforeYear_succ (y : Nat) (hy : 1 ≤ y) :
    daysBeforeYear (y + 1) =
      daysBeforeYear y + (if isLeap y then 366 else 365) := by
  cases h : isLeap y with
  | false =>
    have harith : 365 * y + y / 4 + y / 400 - y / 100 =
        (365 * (y - 1) + (y - 1) / 4 + (y - 1) / 400 - (y - 1) / 100) + 365 := by
      unfold isLeap at h
      simp only [Bool.or_eq_false_iff, Bool.and_eq_false_iff, beq_eq_false_iff_ne,
        ne_eq, bne_eq_false_iff_eq] at h
      omega
    simp only [h, Bool.false_eq_true, if_false]
    unfold daysBeforeYear
    simp only [Nat.add_sub_cancel]
    exact harith
  | true =>
    have harith : 365 * y + y / 4 + y / 400 - y / 100 =
        (365 * (y - 1) + (y - 1) / 4 + (y - 1) / 400 - (y - 1) / 100) + 366 := by
      unfold isLeap at h
      simp only [Bool.or_eq_true, Bool.and_eq_true, beq_iff_eq, bne_iff_ne, ne_eq] at h
      omega
    simp only [h, if_true]
    unfold daysBeforeYear
    simp only [Nat.add_sub_cancel]
    exact harith

lemma toRata_mk (y m day : Nat) :
    toRata ⟨y, m, day⟩ = daysBeforeYear y + daysBeforeMonth y m + day := rfl

lemma valid_mk_iff (y m day : Nat) :
    Date.Valid ⟨y, m, day⟩ ↔
      1 ≤ y ∧ 1 ≤ m ∧ m ≤ 12 ∧ 1 ≤ day ∧ day ≤ daysInMonth y m :=
  Iff.rfl

lemma toRata_pos (d : Date) (hd : d.Valid) : 1 ≤ toRata d := by
  obtain ⟨y, m, day⟩ := d
  rw [valid_mk_iff] at hd
  rw [toRata_mk]
  omega

lemma nextDay_valid (d : Date) (hd : d.Valid) : (nextDay d).Valid := by
  obtain ⟨y, m, day⟩ := d
  rw [valid_mk_iff] at hd
  obtain ⟨hy, hm1, hm2, hd1, hd2⟩ := hd
  unfold nextDay
  dsimp only
  by_cases h1 : day < daysInMonth y m
  · rw [if_pos h1, valid_mk_iff]
    exact ⟨hy, hm1, hm2, by omega, h1⟩
  · rw [if_neg h1]
    by_cases h2 : m < 12
    · rw [if_pos h2, valid_mk_iff]
      exact ⟨hy, by omega, by omega, le_refl 1, daysInMonth_pos y (m + 1)⟩
    · rw [if_neg h2, valid_mk_iff]
      exact ⟨by omega, le_refl 1, by omega, le_refl 1, daysInMonth_pos (y + 1) 1⟩

lemma toRata_nextDay (d : Date) (hd : d.Valid) :
    toRata (nextDay d) = toRata d + 1 := by
  obtain ⟨y, m, day⟩ := d
  rw [valid_mk_iff] at hd
  obtain ⟨hy, hm1, hm2, hd1, hd2⟩ := hd
  unfold nextDay
  dsimp only
  by_cases h1 : day < daysInMonth y m
  · rw [if_pos h1, toRata_mk, toRata_mk]
    omega
  · have hday : day = daysInMonth y m := by omega
    rw [if_neg h1]
    by_cases h2 : m < 12
    · rw [if_pos h2, toRata_mk, toRata_mk]
      have hsucc := daysBeforeMonth_succ y m hm1
      omega
    · have hm12 : m = 12 := by omega
      subst hm12
      rw [if_neg h2, toRata_mk, toRata_mk]
      have h12 := daysBeforeMonth_twelve y
      have hstep := daysBeforeYear_succ y hy
      have hdim : daysInMonth y 12 = 31 := by simp [daysInMonth]
      have hb1 : daysBeforeMonth (y + 1) 1 = 0 := rfl
      rw [hdim] at hday
      rw [hb1, hstep, h12]
      cases hl : isLeap y <;> simp only [hl, if_true, if_false, Bool.false_eq_true,
        ite_true, ite_false] <;> omega

lemma addDaysNat_spec (n : Nat) : ∀ d : Date, d.Valid →
    (addDaysNat d n).Valid ∧ toRata (addDaysNat d n) = toRata d + n := by
  induction n with
  | zero => intro d hd; exact ⟨hd, rfl⟩
  | succ k ih =>
    intro d hd
    have h1 := nextDay_valid d hd
    have h2 := toRata_nextDay d hd
    have h3 := ih (nextDay d) h1
    refine ⟨h3.1, ?_⟩
    have : toRata (addDaysNat (nextDay d) k) = toRata d + 1 + k := by
      rw [h3.2, h2]
    simpa [addDaysNat] using by omega

lemma prevDay_spec (d : Date) (hd : d.Valid) (h1 : 1 < toRata d) :
    (prevDay d).Valid ∧ nextDay (prevDay d) = d := by
  obtain ⟨y, m, day⟩ := d
  rw [valid_mk_iff] at hd
  obtain ⟨hy, hm1, hm2, hd1, hd2⟩ := hd
  unfold prevDay
  dsimp only
  by_cases hA : 1 < day
  · rw [if_pos hA]
    refine ⟨(valid_mk_iff _ _ _).mpr ⟨hy, hm1, hm2, by omega, by omega⟩, ?_⟩
    unfold nextDay
    dsimp only
    have hlt : day - 1 < daysInMonth y m := by omega
    rw [if_pos hlt]
    have he : day - 1 + 1 = day := by omega
    rw [he]
  · rw [if_neg hA]
    by_cases hB : 1 < m
    · rw [if_pos hB]
      have hdim := daysInMonth_pos y (m - 1)
      refine ⟨(valid_mk_iff _ _ _).mpr ⟨hy, by omega, by omega, hdim, le_refl _⟩, ?_⟩
      unfold nextDay
      dsimp only
      rw [if_neg (lt_irrefl (daysInMonth y (m - 1)))]
      rw [if_pos (show m - 1 < 12 by omega)]
      have he1 : m - 1 + 1 = m := by omega
      have he2 : day = 1 := by omega
      rw [he1, he2]
    · rw [if_neg hB]
      have hm' : m = 1 := by omega
      have hday : day = 1 := by omega
      subst hm'; subst hday
      have hy2 : 2 ≤ y := by
        by_contra hc
        have hy1 : y = 1 := by omega
        subst hy1
        rw [toRata_mk] at h1
        simp [daysBeforeYear, daysBeforeMonth] at h1
      have hdim : daysInMonth (y - 1) 12 = 31 := by simp [daysInMonth]
      refine ⟨(valid_mk_iff _ _ _).mpr
        ⟨by omega, by omega, by omega, by omega, by rw [hdim]⟩, ?_⟩
      unfold nextDay
      dsimp only
      rw [hdim, if_neg (lt_irrefl 31), if_neg (lt_irrefl 12)]
      have he : y - 1 + 1 = y := by omega
      rw [he]

lemma toRata_prevDay (d : Date) (hd : d.Valid) (h1 : 1 < toRata d) :
    toRata (prevDay d) + 1 = toRata d := by
  have hs := prevDay_spec d hd h1
  have hn := toRata_nextDay (prevDay d) hs.1
  rw [hs.2] at hn
  omega

lemma subDaysNat_spec (n : Nat) : ∀ d : Date, d.Valid → n < toRata d →
    (subDaysNat d n).Valid ∧ toRata (subDaysNat d n) + n = toRata d := by
  induction n with
  | zero => intro d hd _; exact ⟨hd, rfl⟩
  | succ k ih =>
    intro d hd h
    have h1 : 1 < toRata d := by omega
    have hp := prevDay_spec d hd h1
    have hr := toRata_prevDay d hd h1
    have h3 := ih (prevDay d) hp.1 (by omega)
    refine ⟨h3.1, ?_⟩
    have := h3.2
    simp only [subDaysNat]
    omega

set_option maxHeartbeats 4000000 in
lemma get_period_dates_month (d : Date) (hm1 : 1 ≤ d.month) (hm2 : d.month ≤ 12) :
    get_period_dates d "month" =
      (⟨d.year, d.month, 1⟩, ⟨d.year, d.month, daysInMonth d.year d.month⟩) := by
  obtain ⟨y, m, day⟩ := d
  dsimp only at hm1 hm2 ⊢
  unfold get_period_dates
  rw [if_neg (by decide : ¬ ("month" : String) = "week"), if_pos rfl]
  interval_cases m <;>
    first
      | (simp [addDaysNat, nextDay, subDaysNat, prevDay, daysInMonth]; done)
      | (cases hl : isLeap y <;>
          simp [addDaysNat, nextDay, subDaysNat, prevDay, daysInMonth, hl])

lemma weekday_eq (e : Date) : weekday e = (toRata e - 1) % 7 := rfl

set_option maxHeartbeats 2000000 in
/-- C6: `get_period_dates` is total and, for every valid reference date `d`:
`day` and any unknown period yield `(d, d)`; `year` yields January 1 through
December 31 of `d`'s year; `month` yields the first through last calendar day
of `d`'s month (leap-year aware); `week` yields the Monday-start week
containing `d` (its start is a Monday, its end is six days later, and `d`
lies between them); in particular `(2025-06-17, week)` yields
`(2025-06-16, 2025-06-22)` and `(2025-06-17, month)` yields
`(2025-06-01, 2025-06-30)`. -/
theorem get_period_dates_spec (d : Date) (hd : d.Valid) :
    (∀ p : String, p ≠ "week" → p ≠ "month" → p ≠ "year" →
        get_period_dates d p = (d, d))
    ∧ get_period_dates d "year" = (⟨d.year, 1, 1⟩, ⟨d.year, 12, 31⟩)
    ∧ get_period_dates d "month" =
        (⟨d.year, d.month, 1⟩, ⟨d.year, d.month, daysInMonth d.year d.month⟩)
    ∧ weekday (get_period_dates d "week").1 = 0
    ∧ toRata (get_period_dates d "week").2 = toRata (get_period_dates d "week").1 + 6
    ∧ toRata (get_period_dates d "week").1 ≤ toRata d
    ∧ toRata d ≤ toRata (get_period_dates d "week").2
    ∧ get_period_dates ⟨2025, 6, 17⟩ "week" = (⟨2025, 6, 16⟩, ⟨2025, 6, 22⟩)
    ∧ get_period_dates ⟨2025, 6, 17⟩ "month" = (⟨2025, 6, 1⟩, ⟨2025, 6, 30⟩) := by
  have hweekPair : get_period_dates d "week" =
      (subDaysNat d (weekday d), addDaysNat (subDaysNat d (weekday d)) 6) := by
    unfold get_period_dates
    rw [if_pos rfl]
  have hr1 : 1 ≤ toRata d := toRata_pos d hd
  have hwd : weekday d = (toRata d - 1) % 7 := weekday_eq d
  have hwlt : weekday d < toRata d := by
    have := Nat.mod_le (toRata d - 1) 7
    omega
  have hsub := subDaysNat_spec (weekday d) d hd hwlt
  have hadd := addDaysNat_spec 6 (subDaysNat d (weekday d)) hsub.1
  refine ⟨?_, ?_, ?_, ?_, ?_, ?_, ?_, ?_, ?_⟩
  · intro p h1 h2 h3
    unfold get_period_dates
    rw [if_neg h1, if_neg h2, if_neg h3]
  · unfold get_period_dates
    rw [if_neg (by decide : ¬ ("year" : String) = "week"),
      if_neg (by decide : ¬ ("year" : String) = "month"), if_pos rfl]
  · exact get_period_dates_month d hd.2.1 hd.2.2.1
  · simp only [hweekPair]
    rw [weekday_eq]
    have h2 := hsub.2
    omega
  · simp only [hweekPair]
    exact hadd.2
  · simp only [hweekPair]
    have := hsub.2
    omega
  · simp only [hweekPair]
    have h2 := hsub.2
    have h3 := hadd.2
    have h4 : weekday d ≤ 6 := by
      rw [hwd]
      exact Nat.le_of_lt_succ (Nat.mod_lt _ (by omega))
    omega
  · decide
  · decide

/-- C1 (refuted — failing input): `calculate_working_hours` does not clamp
the break subtraction.  With an `IN` at 10:00, an `OUT` at 10:30 and one
closed non-lunch break 10:00-12:00 on a past day, the guard `start_dt <
end_dt` passes and the function returns `1800 − 7200 = −5400` working
seconds, i.e. `−1.5` working hours — strictly negative, where the claim
demands `max(0, …) ≥ 0`. -/
theorem calculate_working_hours_failing_input :
    calculate_working_hours
        (some ⟨hms 10 0 0, [⟨BreakType.OTHER, some (hms 10 0 0), some (hms 12 0 0)⟩]⟩)
        (some (hms 10 30 0)) ⟨2025, 6, 16⟩ ⟨2025, 6, 17⟩ (hms 12 0 0) =
      (-5400, 0, 7200, true)
    ∧ workedHours
        (some ⟨hms 10 0 0, [⟨BreakType.OTHER, some (hms 10 0 0), some (hms 12 0 0)⟩]⟩)
        (some (hms 10 30 0)) ⟨2025, 6, 16⟩ ⟨2025, 6, 17⟩ (hms 12 0 0) < 0 := by
  have h1 : calculate_working_hours
      (some ⟨hms 10 0 0, [⟨BreakType.OTHER, some (hms 10 0 0), some (hms 12 0 0)⟩]⟩)
      (some (hms 10 30 0)) ⟨2025, 6, 16⟩ ⟨2025, 6, 17⟩ (hms 12 0 0) =
      (-5400, 0, 7200, true) := by decide
  refine ⟨h1, ?_⟩
  unfold workedHours
  rw [h1]
  norm_num

/-- C3: the effective end instant of `calculate_working_hours`: no `IN`
record gives all-zero output with `is_closed = false`; an `OUT` record's time
is used with `is_closed = true`; an `IN` without `OUT` on a date strictly
before today uses the fixed auto-checkout time 19:15 — never the evaluation
instant, so the result is independent of `now` — with `is_closed = false`;
on today without `OUT` the evaluation instant is used with
`is_closed = false`. -/
theorem calculate_working_hours_effective_end
    (ir : InRecord) (outT : Option Time) (t : Time) (target today : Date)
    (nowT n1 n2 : Time) :
    calculate_working_hours none outT target today nowT = (0, 0, 0, false)
    ∧ effectiveEnd (some t) target today nowT = (dtSecs target t, true)
    ∧ (toRata target < toRata today →
        effectiveEnd none target today nowT = (dtSecs target OUT_TIME_DEFAULT, false))
    ∧ (target = today →
        effectiveEnd none target today nowT = (dtSecs today nowT, false))
    ∧ (calculate_working_hours (some ir) outT target today nowT).2.2.2 =
        (effectiveEnd outT target today nowT).2
    ∧ (toRata target < toRata today →
        calculate_working_hours (some ir) none target today n1 =
          calculate_working_hours (some ir) none target today n2) := by
  refine ⟨rfl, rfl, ?_, ?_, ?_, ?_⟩
  · intro h
    unfold effectiveEnd
    rw [if_pos h]
  · intro h
    subst h
    unfold effectiveEnd
    rw [if_neg (lt_irrefl (toRata target))]
  · rcases hp : effectiveEnd outT target today nowT with ⟨e, b⟩
    simp only [calculate_working_hours, hp]
  · intro h
    have he : ∀ n : Time, effectiveEnd none target today n =
        (dtSecs target OUT_TIME_DEFAULT, false) := by
      intro n
      unfold effectiveEnd
      rw [if_pos h]
    simp only [calculate_working_hours, he]

/-- Witness for C3: the past-day and today cases at 2025-06-16/17 and noon. -/
theorem calculate_working_hours_effective_end_witness :
    effectiveEnd none ⟨2025, 6, 16⟩ ⟨2025, 6, 17⟩ (hms 12 0 0) =
      (dtSecs ⟨2025, 6, 16⟩ OUT_TIME_DEFAULT, false)
    ∧ effectiveEnd none ⟨2025, 6, 17⟩ ⟨2025, 6, 17⟩ (hms 12 0 0) =
      (dtSecs ⟨2025, 6, 17⟩ (hms 12 0 0), false) :=
  ⟨(calculate_working_hours_effective_end ⟨0, []⟩ none 0 ⟨2025, 6, 16⟩
      ⟨2025, 6, 17⟩ (hms 12 0 0) 0 0).2.2.1 (by decide),
   (calculate_working_hours_effective_end ⟨0, []⟩ none 0 ⟨2025, 6, 17⟩
      ⟨2025, 6, 17⟩ (hms 12 0 0) 0 0).2.2.2.1 rfl⟩

/-- C2 (refuted — counterexample): in the already-checked-out case the
evaluation is informational and leaves the records alone, but
`Employee.last_seen` is NOT left unchanged — attendance_views.py 420-422 set
it to the evaluation instant on this path too (here from 100 to 200). -/
theorem already_checked_out_mutates_last_seen :
    (evaluateAttendance (some "Alice") true none none
        ⟨some ⟨hms 10 0 0, []⟩, some (hms 19 5 0), some 100⟩ (hms 20 0 0) 200).2 =
      MarkResponse.alreadyCheckedOut
    ∧ (evaluateAttendance (some "Alice") true none none
        ⟨some ⟨hms 10 0 0, []⟩, some (hms 19 5 0), some 100⟩ (hms 20 0 0) 200).1.lastSeen ≠
      (⟨some ⟨hms 10 0 0, []⟩, some (hms 19 5 0), some 100⟩ : MarkState).lastSeen := by
  constructor
  · decide
  · decide

/-- C2 (amended): when today's `IN` and `OUT` records both exist, the
evaluation creates and changes no attendance record and no break and returns
the informational already-checked-out result (not an error), but it does
update `Employee.last_seen` to the evaluation instant. -/
theorem already_checked_out_no_record_mutation (st : MarkState) (ir : InRecord)
    (ot : Time) (name : String) (t : Time) (now : Int)
    (hname : ¬ (name = "" ∨ name = "Unknown"))
    (hin : st.inRec = some ir) (hout : st.outTime = some ot) :
    evaluateAttendance (some name) true none none st t now =
      ({ st with lastSeen := some now }, MarkResponse.alreadyCheckedOut) := by
  simp only [evaluateAttendance, markStep, hin, hout, hname, if_false,
    Bool.not_true, Bool.false_eq_true, ite_false]

/-- Witness for the amended C2 at a concrete state. -/
theorem already_checked_out_no_record_mutation_witness :
    evaluateAttendance (some "Alice") true none none
        ⟨some ⟨hms 10 0 0, []⟩, some (hms 19 5 0), some 100⟩ (hms 20 0 0) 200 =
      (⟨some ⟨hms 10 0 0, []⟩, some (hms 19 5 0), some 200⟩,
        MarkResponse.alreadyCheckedOut) :=
  already_checked_out_no_record_mutation
    ⟨some ⟨hms 10 0 0, []⟩, some (hms 19 5 0), some 100⟩ ⟨hms 10 0 0, []⟩
    (hms 19 5 0) "Alice" (hms 20 0 0) 200 (by decide) rfl rfl

/-- C5: with an office location configured and a device location supplied, a
distance strictly beyond the configured radius yields the informational
too-far result carrying the computed distance and leaves the state — records,
breaks and `last_seen` — untouched; a distance exactly equal to the radius
passes the check (`>` rejection, hence `≤` acceptance) and the attendance
action proceeds. -/
theorem geofence_boundary (name : String) (r d : ℚ) (st : MarkState)
    (t : Time) (now : Int) (hname : ¬ (name = "" ∨ name = "Unknown")) :
    (d > r → evaluateAttendance (some name) true (some r) (some d) st t now =
      (st, MarkResponse.tooFar d))
    ∧ (d = r → evaluateAttendance (some name) true (some r) (some d) st t now =
      markStep st t now) := by
  constructor
  · intro h
    simp only [evaluateAttendance, hname, if_false, Bool.not_true,
      Bool.false_eq_true, ite_false, if_pos h]
  · intro h
    subst h
    simp only [evaluateAttendance, hname, if_false, Bool.not_true,
      Bool.false_eq_true, ite_false, lt_irrefl, gt_iff_lt]

/-- Witness for C5: radius 500 m, distances 501 m (rejected) and 500 m
(accepted). -/
theorem geofence_boundary_witness :
    evaluateAttendance (some "Alice") true (some 500) (some 501)
        ⟨none, none, none⟩ (hms 10 30 0) 7 =
      (⟨none, none, none⟩, MarkResponse.tooFar 501)
    ∧ evaluateAttendance (some "Alice") true (some 500) (some 500)
        ⟨none, none, none⟩ (hms 10 30 0) 7 =
      markStep ⟨none, none, none⟩ (hms 10 30 0) 7 :=
  ⟨(geofence_boundary "Alice" 500 501 ⟨none, none, none⟩ (hms 10 30 0) 7
      (by decide)).1 (by norm_num),
   (geofence_boundary "Alice" 500 500 ⟨none, none, none⟩ (hms 10 30 0) 7
      (by decide)).2 rfl⟩

/-- C10: when the last element of today's break sequence has a null
`break_in`, the probe at attendance_views.py 397 yields `None`, so an
evaluation before 19:00 appends a fresh break (`BREAK_IN`) instead of closing
that element. -/
theorem null_break_in_appends_fresh_break
    (bs : List BreakRec) (lb : BreakRec) (st : MarkState) (ir : InRecord)
    (t : Time) (now : Int)
    (hlast : bs.getLast? = some lb) (hnull : lb.break_in = none)
    (hin : st.inRec = some ir) (hbs : ir.breaks = bs) (hout : st.outTime = none)
    (ht : t < OUT_TIME_MIN) :
    breakStep bs t = (bs ++ [⟨newBreakType t, some t, none⟩], ActionType.BREAK_IN)
    ∧ markStep st t now =
      ({ st with
          inRec := some { ir with breaks := bs ++ [⟨newBreakType t, some t, none⟩] },
          lastSeen := some now },
        MarkResponse.success ActionType.BREAK_IN false) := by
  have hprobe : lastBreakProbe bs = none := by
    unfold lastBreakProbe
    rw [hlast]
    simp [hnull]
  have hbstep : breakStep bs t =
      (bs ++ [⟨newBreakType t, some t, none⟩], ActionType.BREAK_IN) := by
    unfold breakStep
    rw [hprobe]
  refine ⟨hbstep, ?_⟩
  simp only [markStep, hin, hout, hbs, hbstep, if_neg (not_le.mpr ht)]

/-- Witness for C10: a single break whose `break_in` is null, at 10:10. -/
theorem null_break_in_appends_fresh_break_witness :
    breakStep [⟨BreakType.OTHER, none, none⟩] (hms 10 10 0) =
      ([⟨BreakType.OTHER, none, none⟩,
        ⟨newBreakType (hms 10 10 0), some (hms 10 10 0), none⟩],
       ActionType.BREAK_IN) :=
  (null_break_in_appends_fresh_break [⟨BreakType.OTHER, none, none⟩]
    ⟨BreakType.OTHER, none, none⟩
    ⟨some ⟨hms 10 0 0, [⟨BreakType.OTHER, none, none⟩]⟩, none, none⟩
    ⟨hms 10 0 0, [⟨BreakType.OTHER, none, none⟩]⟩ (hms 10 10 0) 0
    rfl rfl rfl rfl rfl (by decide)).1

lemma reachable_breaks_invariant {bs : List BreakRec} (h : ReachableBreaks bs) :
    (∀ b ∈ bs, b.break_in.isSome) ∧ (∀ b ∈ bs.dropLast, b.break_out.isSome) := by
  induction h with
  | init => exact ⟨by simp, by simp⟩
  | step bs t ht h ih =>
    obtain ⟨ih1, ih2⟩ := ih
    cases hp : lastBreakProbe bs with
    | none =>
      have hres : (breakStep bs t).1 = bs ++ [⟨newBreakType t, some t, none⟩] := by
        unfold breakStep; rw [hp]
      have hbsnil : bs = [] := by
        cases hbs : bs.getLast? with
        | none => exact List.getLast?_eq_none_iff.mp hbs
        | some lb =>
          exfalso
          have hmem : lb ∈ bs := List.mem_of_mem_getLast? hbs
          have hin := ih1 lb hmem
          unfold lastBreakProbe at hp
          rw [hbs] at hp
          dsimp only at hp
          rw [if_pos hin] at hp
          exact Option.noConfusion hp
      rw [hres, hbsnil]
      refine ⟨?_, by simp⟩
      intro b hb
      simp only [List.nil_append, List.mem_singleton] at hb
      subst hb
      rfl
    | some lb =>
      have hplast : bs.getLast? = some lb ∧ lb.break_in.isSome = true := by
        unfold lastBreakProbe at hp
        cases hbs : bs.getLast? with
        | none => rw [hbs] at hp; exact Option.noConfusion hp
        | some lb' =>
          rw [hbs] at hp
          dsimp only at hp
          by_cases hin : lb'.break_in.isSome = true
          · rw [if_pos hin] at hp
            obtain rfl : lb' = lb := Option.some.inj hp
            exact ⟨rfl, hin⟩
          · rw [if_neg hin] at hp; exact Option.noConfusion hp
      obtain ⟨hlast, hinlb⟩ := hplast
      have hne : bs ≠ [] := by
        intro hnil; rw [hnil] at hlast; exact Option.noConfusion hlast
      have hdecomp : bs.dropLast ++ [lb] = bs := by
        have hgl : bs.getLast hne = lb := by
          have he := List.getLast?_eq_getLast bs hne
          rw [he] at hlast
          exact Option.some.inj hlast
        have := List.dropLast_append_getLast hne
        rw [hgl] at this
        exact this
      by_cases hopen : lb.break_out.isNone = true
      · have hres : (breakStep bs t).1 =
            bs.dropLast ++ [{ lb with break_out := some t }] := by
          unfold breakStep
          rw [hp]
          dsimp only
          rw [if_pos hopen]
          dsimp only
          unfold setLastBreakOut
          rw [hlast]
        rw [hres]
        constructor
        · intro b hb
          rcases List.mem_append.mp hb with h' | h'
          · exact ih1 b (List.dropLast_subset bs h')
          · simp only [List.mem_singleton] at h'
            subst h'
            exact hinlb
        · rw [List.dropLast_concat]
          exact ih2
      · have hres : (breakStep bs t).1 = bs ++ [⟨newBreakType t, some t, none⟩] := by
          unfold breakStep
          rw [hp]
          dsimp only
          rw [if_neg hopen]
        rw [hres]
        constructor
        · intro b hb
          rcases List.mem_append.mp hb with h' | h'
          · exact ih1 b h'
          · simp only [List.mem_singleton] at h'
            subst h'
            rfl
        · rw [List.dropLast_concat]
          intro b hb
          rw [← hdecomp] at hb
          rcases List.mem_append.mp hb with h' | h'
          · exact ih2 b h'
          · simp only [List.mem_singleton] at h'
            subst h'
            cases hbo : b.break_out with
            | none => rw [hbo] at hopen; exact absurd rfl hopen
            | some v => rfl

/-- C4: every break sequence reachable through the state machine has at most
one open break (`break_out == null`) and keeps every non-final break closed
(the open break, if any, is the last element); on such a sequence an
evaluation before 19:00 closes an open last break (`BREAK_OUT`, setting its
`break_out` to the current time) instead of opening a new one, and appends a
fresh break (`BREAK_IN`) exactly when no open break exists; the break arm of
`markStep` routes through `breakStep` and also updates `last_seen`. -/
theorem break_ledger_single_open_invariant (bs : List BreakRec)
    (h : ReachableBreaks bs) :
    (bs.filter (fun b => b.break_out.isNone)).length ≤ 1
    ∧ (∀ b ∈ bs.dropLast, b.break_out.isSome)
    ∧ (∀ (t : Time) (lb : BreakRec), bs.getLast? = some lb → lb.break_out = none →
        breakStep bs t = (bs.dropLast ++ [{ lb with break_out := some t }],
          ActionType.BREAK_OUT))
    ∧ (∀ t : Time, (∀ b ∈ bs, b.break_out.isSome) →
        breakStep bs t = (bs ++ [⟨newBreakType t, some t, none⟩], ActionType.BREAK_IN))
    ∧ (∀ (st : MarkState) (ir : InRecord) (t : Time) (now : Int),
        st.inRec = some ir → ir.breaks = bs → st.outTime = none →
        t < OUT_TIME_MIN →
        markStep st t now =
          ({ st with
              inRec := some { ir with breaks := (breakStep bs t).1 },
              lastSeen := some now },
           MarkResponse.success (breakStep bs t).2 false)) := by
  obtain ⟨hin, hclosed⟩ := reachable_breaks_invariant h
  refine ⟨?_, hclosed, ?_, ?_, ?_⟩
  · cases hbs : bs.getLast? with
    | none =>
      have : bs = [] := List.getLast?_eq_none_iff.mp hbs
      simp [this]
    | some lb =>
      have hne : bs ≠ [] := by
        intro hnil; rw [hnil] at hbs; exact Option.noConfusion hbs
      have hdecomp : bs.dropLast ++ [lb] = bs := by
        have hgl : bs.getLast hne = lb := by
          have he := List.getLast?_eq_getLast bs hne
          rw [he] at hbs
          exact Option.some.inj hbs
        have := List.dropLast_append_getLast hne
        rw [hgl] at this
        exact this
      rw [← hdecomp, List.filter_append]
      have hnil : bs.dropLast.filter (fun b => b.break_out.isNone) = [] := by
        rw [List.filter_eq_nil_iff]
        intro b hb
        have := hclosed b hb
        simp only [Option.isNone_iff_eq_none]
        intro hc
        rw [hc] at this
        simp at this
      rw [hnil]
      simp only [List.nil_append]
      exact (List.length_filter_le _ _).trans (by simp)
  · intro t lb hlast hnull
    have hmem : lb ∈ bs := List.mem_of_mem_getLast? hlast
    have hprobe : lastBreakProbe bs = some lb := by
      unfold lastBreakProbe
      rw [hlast]
      dsimp only
      rw [if_pos (hin lb hmem)]
    unfold breakStep
    rw [hprobe]
    dsimp only
    rw [if_pos (show lb.break_out.isNone = true by rw [hnull]; rfl)]
    unfold setLastBreakOut
    rw [hlast]
  · intro t hall
    cases hbs : bs.getLast? with
    | none =>
      have hprobe : lastBreakProbe bs = none := by
        unfold lastBreakProbe
        rw [hbs]
      unfold breakStep
      rw [hprobe]
    | some lb =>
      have hmem : lb ∈ bs := List.mem_of_mem_getLast? hbs
      have hprobe : lastBreakProbe bs = some lb := by
        unfold lastBreakProbe
        rw [hbs]
        dsimp only
        rw [if_pos (hin lb hmem)]
      have hnotopen : ¬ (lb.break_out.isNone = true) := by
        have := hall lb hmem
        cases hbo : lb.break_out with
        | none => rw [hbo] at this; simp at this
        | some v => simp [hbo]
      unfold breakStep
      rw [hprobe]
      dsimp only
      rw [if_neg hnotopen]
  · intro st ir t now hst hbs hout ht
    rcases hbt : breakStep bs t with ⟨bs', act⟩
    simp only [markStep, hst, hout, hbs, hbt, if_neg (not_le.mpr ht)]

/-- Witness for C4 at the reachable empty break sequence. -/
theorem break_ledger_single_open_invariant_witness :
    breakStep [] (hms 10 10 0) =
      ([⟨newBreakType (hms 10 10 0), some (hms 10 10 0), none⟩],
        ActionType.BREAK_IN) :=
  (break_ledger_single_open_invariant [] ReachableBreaks.init).2.2.2.1
    (hms 10 10 0) (by simp)

/-- Witness for C6 at the concrete reference date 2025-06-17. -/
theorem get_period_dates_spec_witness :
    (⟨2025, 6, 17⟩ : Date).Valid ∧
      get_period_dates ⟨2025, 6, 17⟩ "week" = (⟨2025, 6, 16⟩, ⟨2025, 6, 22⟩) ∧
      get_period_dates ⟨2025, 6, 17⟩ "month" = (⟨2025, 6, 1⟩, ⟨2025, 6, 30⟩) :=
  ⟨by decide,
    (get_period_dates_spec ⟨2025, 6, 17⟩ (by decide)).2.2.2.2.2.2.2.1,
    (get_period_dates_spec ⟨2025, 6, 17⟩ (by decide)).2.2.2.2.2.2.2.2⟩

lemma trendLoop_entry_sum (records : List DBRec) (total : Int) (endD : Date)
    (interval : String) :
    ∀ (fuel : Nat) (cur : Date) (e : String × Int × Int),
      e ∈ trendLoop records total endD interval cur fuel →
      e.2.1 + e.2.2 = total := by
  intro fuel
  induction fuel with
  | zero =>
    intro cur e he
    simp [trendLoop] at he
  | succ k ih =>
    intro cur e he
    rw [trendLoop] at he
    by_cases h : toRata cur ≤ toRata endD
    · rw [if_pos h] at he
      dsimp only at he
      rcases List.mem_cons.mp he with h' | h'
      · subst h'
        dsimp only
        omega
      · exact ih _ _ h'
    · rw [if_neg h] at he
      simp at he

/-- C7: in the presence trend, whenever at least one employee exists, every
bucket the loop produces satisfies `present + absent = total_employees`
(`absent` is computed as `total_employees − present`, and each loop iteration
feeds exactly one bucket of the defaultdict, since the cursor leaves the
bucket's day/month/year before the next iteration). -/
theorem attendance_trend_bucket_sum (employees : List Nat)
    (records : List DBRec) (start endD : Date) (interval : String)
    (fuel : Nat) (e : String × Int × Int) (hcnt : 0 < employees.length)
    (he : e ∈ get_attendance_percentage_trends employees records start endD
      interval fuel) :
    e.2.1 + e.2.2 = (employees.length : Int) := by
  unfold get_attendance_percentage_trends at he
  rw [if_neg (by simp only [beq_iff_eq]; omega)] at he
  exact trendLoop_entry_sum records (employees.length : Int) endD interval
    fuel start e he

/-- Witness for C7: one employee, no records, a one-day daily range — the
single bucket is `("2025-01-01", 0, 1)` and `0 + 1 = 1`. -/
theorem attendance_trend_bucket_sum_witness :
    ((0 : Int) + (1 : Int) = (([1] : List Nat).length : Int)) :=
  attendance_trend_bucket_sum [1] [] ⟨2025, 1, 1⟩ ⟨2025, 1, 1⟩ "daily" 2
    ("2025-01-01", 0, 1) (by decide) (by decide)

/-- An `IN` record fixture: employee 1 on 2025-06-16 at 10:00. -/
def rInJun16 : DBRec :=
  ⟨1, "Alice", "E1", ⟨2025, 6, 16⟩, hms 10 0 0, "IN", []⟩

/-- An `OUT` record fixture: employee 1 on 2025-06-16 at 15:00. -/
def rOutJun16 : DBRec :=
  ⟨1, "Alice", "E1", ⟨2025, 6, 16⟩, hms 15 0 0, "OUT", []⟩

/-- A closed five-hour working day of employee 1. -/
def sampleDb : List DBRec := [rInJun16, rOutJun16]

/-- C8 (refuted — counterexample): with the threshold set to `0`, the claim
says every selected record with computed hours `≥ 0` — here five hours — is
excluded; but `if total_hours_lt and …` treats the float `0.0` as falsy, the
filter is skipped and the record is kept (the summary has one row). -/
theorem hours_filter_zero_threshold_counterexample :
    (0 : ℚ) ≤ ((calcFor sampleDb 1 ⟨2025, 6, 16⟩ ⟨2025, 6, 17⟩ 0).1 : ℚ) / 3600
    ∧ (get_filtered_attendance_summary sampleDb ⟨2025, 6, 1⟩ ⟨2025, 6, 30⟩ []
        (some 0) ⟨2025, 6, 17⟩ 0).length = 1 := by
  constructor
  · have h : (calcFor sampleDb 1 ⟨2025, 6, 16⟩ ⟨2025, 6, 17⟩ 0).1 = 18000 := by
      decide
    rw [h]
    norm_num
  · decide

/-- C8 (amended): whenever the max-hours threshold is set and non-zero,
every selected `IN` record whose computed working hours reach the threshold
is excluded from the summary, and every selected record with computed hours
strictly under the threshold contributes its summary row; a threshold of `0`
is falsy and disables the filter. -/
theorem hours_filter_spec (db : List DBRec) (start endD : Date)
    (ids : List String) (v : ℚ) (today : Date) (nowT : Time) (hv : v ≠ 0) :
    (∀ row ∈ get_filtered_attendance_summary db start endD ids (some v)
        today nowT,
      ((calcFor db row.employee row.date today nowT).1 : ℚ) / 3600 < v)
    ∧ (∀ r ∈ db.filter (inBaseQuery start endD ids),
        ((calcFor db r.employee r.date today nowT).1 : ℚ) / 3600 < v →
        summaryRowOf db r today nowT ∈
          get_filtered_attendance_summary db start endD ids (some v) today nowT) := by
  have htr : pyTruthyQ (some v) = true := by
    simp [pyTruthyQ, hv]
  constructor
  · intro row hrow
    unfold get_filtered_attendance_summary at hrow
    rw [List.mem_filterMap] at hrow
    obtain ⟨r, hr, hfr⟩ := hrow
    dsimp only at hfr
    by_cases hcond : (pyTruthyQ (some v) && decide ((some v).getD 0 ≤
        ((calcFor db r.employee r.date today nowT).1 : ℚ) / 3600)) = true
    · rw [if_pos hcond] at hfr
      exact Option.noConfusion hfr
    · rw [if_neg hcond] at hfr
      obtain rfl := Option.some.inj hfr
      simp only [htr, Bool.true_and, Option.getD_some,
        decide_eq_true_eq] at hcond
      have : ((calcFor db r.employee r.date today nowT).1 : ℚ) / 3600 < v :=
        lt_of_not_le hcond
      simpa [summaryRowOf] using this
  · intro r hr hless
    unfold get_filtered_attendance_summary
    rw [List.mem_filterMap]
    refine ⟨r, hr, ?_⟩
    dsimp only
    rw [if_neg ?_]
    simp only [htr, Bool.true_and, Option.getD_some, decide_eq_true_eq]
    exact not_le.mpr hless

/-- Witness for the amended C8: with threshold 9 the five-hour day survives
into the summary. -/
theorem hours_filter_spec_witness :
    summaryRowOf sampleDb rInJun16 ⟨2025, 6, 17⟩ 0 ∈
      get_filtered_attendance_summary sampleDb ⟨2025, 6, 1⟩ ⟨2025, 6, 30⟩ []
        (some 9) ⟨2025, 6, 17⟩ 0 :=
  (hours_filter_spec sampleDb ⟨2025, 6, 1⟩ ⟨2025, 6, 30⟩ [] 9 ⟨2025, 6, 17⟩ 0
      (by norm_num)).2 rInJun16 (by decide)
    (by
      have h : (calcFor sampleDb rInJun16.employee rInJun16.date
          ⟨2025, 6, 17⟩ 0).1 = 18000 := by decide
      rw [h]
      norm_num)

/-- An `IN` record fixture: employee 2, today (2025-06-17), still open. -/
def rInToday : DBRec :=
  ⟨2, "Bob", "E2", ⟨2025, 6, 17⟩, hms 10 0 0, "IN", []⟩

/-- A store holding one open session of today. -/
def openDb : List DBRec := [rInToday]

/-- C9 (refuted — failing input): the report sort is not total.  A summary
row of a still-open session of today is processed to `out_time =
"In progress..."`; sorting by `out_time` sends that value to
`strptime('%I:%M %p')`, which raises `ValueError` (only `''` and `'-'` fall
back to `time.min`), so the whole sort raises instead of sorting the
placeholder to the minimum. -/
theorem report_sort_raises_on_in_progress :
    (processRecord openDb (summaryRowOf openDb rInToday ⟨2025, 6, 17⟩
        (hms 12 0 0)) ⟨2025, 6, 17⟩ (hms 12 0 0)).out_time = "In progress..."
    ∧ dynamic_sort_key "out_time"
        (processRecord openDb (summaryRowOf openDb rInToday ⟨2025, 6, 17⟩
          (hms 12 0 0)) ⟨2025, 6, 17⟩ (hms 12 0 0)) =
      Except.error "In progress..."
    ∧ sortReport
        [processRecord openDb (summaryRowOf openDb rInToday ⟨2025, 6, 17⟩
          (hms 12 0 0)) ⟨2025, 6, 17⟩ (hms 12 0 0)] "out_time" "asc" =
      Except.error "In progress..." := by
  refine ⟨?_, ?_, ?_⟩
  · rfl
  · rfl
  · rfl

end ErpFace
